import Mathlib

/-!
Verification development for the aikit packager frontend.

This file gives a shallow embedding of the packaging pipeline:

* the file classifier and per-category layer emission of the modelpack
  assembler script (`generateModelpackScript` in `pkg/packager/build_hf.go`),
* the layer media-type selection of the generic assembler script
  (`generateGenericScript` in `pkg/packager/build_hf.go`),
* the Hugging Face reference parser (`ParseHuggingFaceSpec` in
  `pkg/aikit2llb/inference`), modelled character-by-character after the
  anchored RE2 pattern used by the Go code,
* the source resolver (`resolveSourceState`) and the snapshot builder
  (`buildHuggingFaceState`),
* the exclusion-pattern scanner (`parseExcludePatterns` in
  `pkg/packager/build_helpers.go`), and
* the option parser (`parseBuildConfig`) together with a control-flow model
  of the `BuildModelpack`/`BuildGeneric` drivers.

Shell scripts are modelled by the functions the generated script computes
(classification, per-category layer counts, media types).  Go strings are
modelled as `String`/`List Char`, sizes as `Nat`, and fallible functions
return `Except String`.
-/

namespace Aikit

/-! ### Character and list helpers -/

/-- The single-quote character (ASCII 39), kept symbolic. -/
def squote : Char := Char.ofNat 39

/-- The double-quote character (ASCII 34), kept symbolic. -/
def dquote : Char := Char.ofNat 34

/-- The newline character (ASCII 10). -/
def nlChar : Char := Char.ofNat 10

/-- Scan a character list up to (excluding) the first character satisfying
`p`; returns the scanned part and the remainder.  This is how a greedy
negated character class `[^X]+` consumes input in an anchored RE2 match. -/
def takeUntil (p : Char → Bool) : List Char → List Char × List Char
  | [] => ([], [])
  | c :: cs =>
    if p c then ([], c :: cs)
    else
      let r := takeUntil p cs
      (c :: r.1, r.2)

/-- Remove the expected leading characters `pre` from `l`; `none` when `l`
does not start with `pre` (models `strings.HasPrefix` + `TrimPrefix`). -/
def dropStart : List Char → List Char → Option (List Char)
  | [], l => some l
  | _ :: _, [] => none
  | p :: ps, c :: cs => if c = p then dropStart ps cs else none

/-- `true` when `pat` occurs as a contiguous run inside `s`. -/
def hasInfix (pat : List Char) : List Char → Bool
  | [] => pat.isEmpty
  | c :: cs => pat.isPrefixOf (c :: cs) || hasInfix pat cs

theorem takeUntil_eq (p : Char → Bool) :
    ∀ (l a b : List Char), takeUntil p l = (a, b) →
      l = a ++ b ∧ (∀ c ∈ a, p c = false) ∧ (∀ x r, b = x :: r → p x = true) := by
  intro l
  induction l with
  | nil =>
    intro a b h
    simp only [takeUntil] at h
    obtain ⟨rfl, rfl⟩ := Prod.mk.injEq .. ▸ h
    simp
  | cons c cs ih =>
    intro a b h
    simp only [takeUntil] at h
    by_cases hc : p c
    · simp only [hc, if_pos] at h
      obtain ⟨rfl, rfl⟩ := Prod.mk.injEq .. ▸ h
      refine ⟨rfl, by simp, ?_⟩
      intro x r hxr
      cases hxr
      exact hc
    · simp only [hc, if_neg, Bool.not_eq_true] at h
      cases a with
      | nil => simp at h
      | cons a0 as =>
        simp only [Prod.mk.injEq, List.cons.injEq] at h
        obtain ⟨⟨rfl, h1⟩, h2⟩ := h
        obtain ⟨hl, hall, hhd⟩ := ih as b (by rw [← h1, ← h2])
        refine ⟨by simp [hl], ?_, hhd⟩
        intro d hd
        rcases List.mem_cons.mp hd with rfl | hd
        · simpa using hc
        · exact hall d hd

theorem takeUntil_stop (p : Char → Bool) (a : List Char)
    (ha : ∀ c ∈ a, p c = false) (x : Char) (hx : p x = true) (r : List Char) :
    takeUntil p (a ++ x :: r) = (a, x :: r) := by
  induction a with
  | nil => simp [takeUntil, hx]
  | cons c cs ih =>
    have hc : p c = false := ha c (by simp)
    have ih' := ih (fun d hd => ha d (by simp [hd]))
    simp [takeUntil, hc, ih']

theorem takeUntil_all (p : Char → Bool) (a : List Char)
    (ha : ∀ c ∈ a, p c = false) :
    takeUntil p a = (a, []) := by
  induction a with
  | nil => simp [takeUntil]
  | cons c cs ih =>
    have hc : p c = false := ha c (by simp)
    have ih' := ih (fun d hd => ha d (by simp [hd]))
    simp [takeUntil, hc, ih']

theorem dropStart_sound :
    ∀ (pre l r : List Char), dropStart pre l = some r → l = pre ++ r := by
  intro pre
  induction pre with
  | nil =>
    intro l r h
    simp only [dropStart, Option.some.injEq] at h
    simp [h]
  | cons p ps ih =>
    intro l r h
    cases l with
    | nil => simp [dropStart] at h
    | cons c cs =>
      simp only [dropStart] at h
      by_cases hc : c = p
      · subst hc
        simp only [if_pos rfl] at h
        simp [ih cs r h]
      · simp [hc] at h

theorem dropStart_append (pre l : List Char) :
    dropStart pre (pre ++ l) = some l := by
  induction pre with
  | nil => simp [dropStart]
  | cons p ps ih => simp [dropStart, ih]

/-! ### File classification (modelpack assembler script)

The modelpack script strips a leading `./`, lowercases the basename with
`tr A-Z a-z` (ASCII only, exactly `Char.toLower`), and dispatches on a shell
`case` statement whose arms are listed below in source order.  Unknown files
larger than `largeFileThreshold` bytes become weights, smaller ones config.
-/

/-- Last path component (what `basename` returns for the `find` output paths,
which never end in a slash). -/
def baseName (f : List Char) : List Char :=
  (f.reverse.takeWhile (fun c => c != '/')).reverse

/-- Lowercased basename used for the `case` match (`tr A-Z a-z`). -/
def lowerBase (f : List Char) : List Char :=
  (baseName f).map Char.toLower

/-- Shell glob arm `*.safetensors|*.bin|*.gguf|*.pt|*.ckpt`. -/
def weightsGlob (b : List Char) : Bool :=
  ".safetensors".toList.isSuffixOf b || ".bin".toList.isSuffixOf b ||
  ".gguf".toList.isSuffixOf b || ".pt".toList.isSuffixOf b ||
  ".ckpt".toList.isSuffixOf b

/-- Shell glob arm `readme*|license*|license|*.md`. -/
def docsGlob (b : List Char) : Bool :=
  "readme".toList.isPrefixOf b || "license".toList.isPrefixOf b ||
  b == "license".toList || ".md".toList.isSuffixOf b

/-- The glob `*tokenizer*.json`: ends in `.json` and the part before that
suffix contains `tokenizer` (the occurrence cannot overlap the suffix since
`tokenizer` contains none of the suffix characters). -/
def tokenizerGlob (b : List Char) : Bool :=
  ".json".toList.isSuffixOf b && hasInfix "tokenizer".toList (b.take (b.length - 5))

/-- Shell glob arm
`config.json|tokenizer.json|*tokenizer*.json|generation_config.json|*.json|*.txt`. -/
def configGlob (b : List Char) : Bool :=
  b == "config.json".toList || b == "tokenizer.json".toList ||
  tokenizerGlob b || b == "generation_config.json".toList ||
  ".json".toList.isSuffixOf b || ".txt".toList.isSuffixOf b

/-- Shell glob arm `*.py|*.sh|*.ipynb|*.go|*.js|*.ts`. -/
def codeGlob (b : List Char) : Bool :=
  ".py".toList.isSuffixOf b || ".sh".toList.isSuffixOf b ||
  ".ipynb".toList.isSuffixOf b || ".go".toList.isSuffixOf b ||
  ".js".toList.isSuffixOf b || ".ts".toList.isSuffixOf b

/-- Shell glob arm `*.csv|*.tsv|*.jsonl|*.parquet|*.arrow|*.h5|*.npz`. -/
def datasetGlob (b : List Char) : Bool :=
  ".csv".toList.isSuffixOf b || ".tsv".toList.isSuffixOf b ||
  ".jsonl".toList.isSuffixOf b || ".parquet".toList.isSuffixOf b ||
  ".arrow".toList.isSuffixOf b || ".h5".toList.isSuffixOf b ||
  ".npz".toList.isSuffixOf b

/-- `largeFileThreshold` from `build_hf.go` (10 MiB). -/
def largeFileThreshold : Nat := 10485760

/-- The five modelpack file categories. -/
inductive Category where
  | weights
  | config
  | docs
  | code
  | dataset
deriving DecidableEq, Repr

/-- The classifier of the modelpack script: `case` arms in source order,
first match winning, with the size-based fallback. -/
def categorize (f : List Char) (sz : Nat) : Category :=
  let b := lowerBase f
  if weightsGlob b then .weights
  else if docsGlob b then .docs
  else if configGlob b then .config
  else if codeGlob b then .code
  else if datasetGlob b then .dataset
  else if sz > largeFileThreshold then .weights
  else .config

/-- One enumerated file: path relative to the source root (after stripping
the leading `./`) and its byte size from the cached `stat` pass. -/
structure FileRec where
  path : List Char
  size : Nat
deriving DecidableEq, Repr

/-- Category of an enumerated file. -/
def fileCategory (fr : FileRec) : Category := categorize fr.path fr.size

/-- The per-category list file (`/tmp/<cat>.list`): files of the given
category in enumeration order. -/
def catFiles (c : Category) (files : List FileRec) : List FileRec :=
  files.filter (fun fr => decide (fileCategory fr = c))

/-- The four recognized `PACK_MODE` values of the assembler scripts. -/
inductive PackMode where
  | raw
  | tar
  | targz
  | tarzst
deriving DecidableEq, Repr

/-- Number of layers `add_category` emits for one category list:
empty lists are skipped (`[ ! -s "$list" ] && return 0`, and `det_tar`
refuses empty lists); `raw` mode emits one layer per file; archive modes
emit one layer per file for weights and a single aggregated layer
otherwise. -/
def categoryLayerCount (m : PackMode) (c : Category) (files : List FileRec) : Nat :=
  let l := catFiles c files
  match m with
  | .raw => l.length
  | _ => if l.length = 0 then 0 else if c = Category.weights then l.length else 1

/-- Total layer count of the modelpack script: the five `add_category`
invocations in source order. -/
def modelpackLayerCount (m : PackMode) (files : List FileRec) : Nat :=
  categoryLayerCount m .weights files + categoryLayerCount m .config files +
  categoryLayerCount m .docs files + categoryLayerCount m .code files +
  categoryLayerCount m .dataset files

/-- Number of non-empty non-weights categories (each contributes exactly one
aggregated layer in the archive pack modes). -/
def nonEmptyNonWeightsCount (files : List FileRec) : Nat :=
  (if (catFiles .config files).length = 0 then 0 else 1) +
  (if (catFiles .docs files).length = 0 then 0 else 1) +
  (if (catFiles .code files).length = 0 then 0 else 1) +
  (if (catFiles .dataset files).length = 0 then 0 else 1)

theorem catFiles_length_sum (files : List FileRec) :
    (catFiles .weights files).length + (catFiles .config files).length +
    (catFiles .docs files).length + (catFiles .code files).length +
    (catFiles .dataset files).length = files.length := by
  induction files with
  | nil => simp [catFiles]
  | cons hd tl ih =>
    simp only [catFiles, List.filter_cons] at *
    cases h : fileCategory hd <;> simp [h] <;> omega

/-! ### Spec-side classifier (for the refinement claim C2)

The claim lists the same category globs, with the docs globs in the order
`readme*`, `license`, `license*`, `*.md` (a permutation of one `case` arm,
hence the same first-match behaviour). -/

/-- Docs globs in the order the claim lists them. -/
def docsGlobClaim (b : List Char) : Bool :=
  "readme".toList.isPrefixOf b || b == "license".toList ||
  "license".toList.isPrefixOf b || ".md".toList.isSuffixOf b

/-- Classifier as worded by the claim: category globs in the order weights,
docs, config, code, dataset, first match winning; unmatched files become
weights above 10485760 bytes, config otherwise. -/
def categorizeClaim (f : List Char) (sz : Nat) : Category :=
  let b := lowerBase f
  if weightsGlob b then .weights
  else if docsGlobClaim b then .docs
  else if configGlob b then .config
  else if codeGlob b then .code
  else if datasetGlob b then .dataset
  else if sz > 10485760 then .weights
  else .config

theorem docsGlob_eq_claim (b : List Char) : docsGlob b = docsGlobClaim b := by
  unfold docsGlob docsGlobClaim
  cases h1 : "readme".toList.isPrefixOf b <;>
    cases h2 : "license".toList.isPrefixOf b <;>
    cases h3 : b == "license".toList <;> simp

/-! ### Generic assembler media types

`generateGenericScript` computes `rawLayerMT` and `archiveLayerMT` before
substituting them into the script template: `rawLayerMT` is
`application/octet-stream` exactly when `packMode == "raw"`, while
`archiveLayerMT` is always `ocispec.MediaTypeImageLayer`
(`application/vnd.oci.image.layer.v1.tar`), with no adjustment for the
`tar+gzip` / `tar+zstd` modes.  The script's `case "$PACK_MODE"` then uses
`rawLayerMT` for every layer in the raw branch and `archiveLayerMT` for the
single archive layer; any other mode fails. -/

/-- `ocispec.MediaTypeImageLayer`. -/
def mediaTypeImageLayer : String := "application/vnd.oci.image.layer.v1.tar"

/-- Media type the generic script assigns to its layer(s) for a given
`packMode` string, mirroring `generateGenericScript` (the name, refName,
artifactType and debug arguments do not enter the computation; they are kept
to mirror the Go signature).  `none` models the script's
`unknown PACK_MODE` failure. -/
def genericLayerMT (packMode _artifactType _name _refName : String)
    (_debug : Bool) : Option String :=
  let rawLayerMT := if packMode = "raw" then "application/octet-stream" else mediaTypeImageLayer
  let archiveLayerMT := mediaTypeImageLayer
  if packMode = "raw" then some rawLayerMT
  else if packMode = "tar" ∨ packMode = "tar+gzip" ∨ packMode = "tar+zstd" then
    some archiveLayerMT
  else none

/-! ### Hugging Face reference parsing

`ParseHuggingFaceSpec` first requires the `huggingface://` scheme, then
matches the anchored RE2 pattern

  `^huggingface://([^/]+)/([^/@:]+)(?:[@:]([^/]+))?(?:/(.*))?$`

Because every repetition is a negated character class that cannot cross its
own stop characters, the match is deterministic and is computed below by a
left-to-right scan: namespace up to the first `/`; model up to the first of
`/`, `@`, `:`; optional revision after `@` or `:` up to the next `/`;
optional subpath after `/` to the end.  RE2's `.` does not match a newline
(and the pattern is compiled without the `s` flag), so a subpath containing
a newline makes the whole pattern fail; the negated classes `[^/]` and
`[^/@:]` do match newlines.  Revision defaults to `main`; an absent fourth
group leaves the subpath empty. -/

/-- Result record of `ParseHuggingFaceSpec` (`HuggingFaceSpec` in Go). -/
structure HuggingFaceSpec where
  Namespace : String
  Model : String
  Revision : String
  SubPath : String
deriving DecidableEq, Repr

/-- The scheme `huggingface://`. -/
def hfScheme : List Char := "huggingface://".toList

/-- Stop character of the namespace group `[^/]+` and the revision group. -/
def isSlash (c : Char) : Bool := c == '/'

/-- Stop characters of the model group `[^/@:]+`. -/
def isModelStop (c : Char) : Bool := c == '/' || c == '@' || c == ':'

/-- Whether a character list contains a newline (which `(.*)` cannot match). -/
def hasNl : List Char → Bool
  | [] => false
  | c :: cs => c == nlChar || hasNl cs

theorem hasNl_eq_false (l : List Char) : hasNl l = false ↔ nlChar ∉ l := by
  induction l with
  | nil => simp [hasNl]
  | cons c cs ih =>
    simp only [hasNl, Bool.or_eq_false_iff, beq_eq_false_iff_ne, ih, List.mem_cons]
    constructor
    · rintro ⟨h1, h2⟩ (h | h)
      · exact h1 h.symm
      · exact h2 h
    · intro h
      exact ⟨fun hc => h (Or.inl hc.symm), fun hc => h (Or.inr hc)⟩

/-- The `no match` / empty-group failure of the regex, wrapped by the Go
function into its error message. -/
def hfInvalid (src : String) : Except String HuggingFaceSpec :=
  .error ("invalid huggingface spec: " ++ src)

/-- Matching of the optional revision `(?:[@:]([^/]+))?` once a separator
character has been consumed: revision up to the next `/` (non-empty), then
the optional subpath. -/
def parseRev (src : String) (ns model r4 : List Char) : Except String HuggingFaceSpec :=
  if (takeUntil isSlash r4).1 = [] then hfInvalid src
  else
    match (takeUntil isSlash r4).2 with
    | [] => .ok ⟨String.mk ns, String.mk model, String.mk (takeUntil isSlash r4).1, ""⟩
    | _ :: r6 =>
      if hasNl r6 then hfInvalid src
      else .ok ⟨String.mk ns, String.mk model, String.mk (takeUntil isSlash r4).1, String.mk r6⟩

/-- Matching of the optional parts after the model group: nothing, a direct
`/(.*)` subpath (revision defaults to `main`), or `[@:]` and a revision. -/
def parseAfterModel (src : String) (ns model r3 : List Char) : Except String HuggingFaceSpec :=
  match r3 with
  | [] => .ok ⟨String.mk ns, String.mk model, "main", ""⟩
  | c :: r4 =>
    if c = '/' then
      if hasNl r4 then hfInvalid src
      else .ok ⟨String.mk ns, String.mk model, "main", String.mk r4⟩
    else parseRev src ns model r4

/-- The RE2 match of `hfSpecPattern` on the input after the scheme, together
with the field assembly of the Go function (revision defaulting to `main`,
subpath defaulting to empty). -/
def parseHFCore (src : String) (rest : List Char) : Except String HuggingFaceSpec :=
  match takeUntil isSlash rest with
  | (_, []) => hfInvalid src
  | (ns, _ :: afterNs) =>
    if ns = [] then hfInvalid src
    else if (takeUntil isModelStop afterNs).1 = [] then hfInvalid src
    else parseAfterModel src ns (takeUntil isModelStop afterNs).1
      (takeUntil isModelStop afterNs).2

/-- `ParseHuggingFaceSpec` from `pkg/aikit2llb/inference`: scheme check,
regex match, field assembly.  (The Go function's final
`namespace and model required` check is unreachable: the `+` quantifiers of
the pattern already guarantee both groups are non-empty.) -/
def ParseHuggingFaceSpec (src : String) : Except String HuggingFaceSpec :=
  match dropStart hfScheme src.toList with
  | none => .error ("not a huggingface source: " ++ src)
  | some rest => parseHFCore src rest

/-! #### Canonical decompositions of well-formed references -/

/-- Characters contributed by an optional `[@:]rev` part. -/
def revPart : Option (Char × List Char) → List Char
  | none => []
  | some (sep, rev) => sep :: rev

/-- Characters contributed by an optional `/subpath` part. -/
def subPart : Option (List Char) → List Char
  | none => []
  | some sub => '/' :: sub

/-- A reference assembled from its grammatical parts. -/
def hfBuild (ns model : List Char) (orev : Option (Char × List Char))
    (osub : Option (List Char)) : List Char :=
  hfScheme ++ ns ++ '/' :: (model ++ revPart orev ++ subPart osub)

/-- Namespace constraint `[^/]+`. -/
def NsOk (ns : List Char) : Prop := ns ≠ [] ∧ ∀ c ∈ ns, c ≠ '/'

/-- Model constraint `[^/@:]+`. -/
def ModelOk (model : List Char) : Prop :=
  model ≠ [] ∧ ∀ c ∈ model, c ≠ '/' ∧ c ≠ '@' ∧ c ≠ ':'

/-- Revision constraint: separator `@` or `:` and revision `[^/]+`. -/
def RevOk : Option (Char × List Char) → Prop
  | none => True
  | some (sep, rev) => (sep = '@' ∨ sep = ':') ∧ rev ≠ [] ∧ ∀ c ∈ rev, c ≠ '/'

/-- Subpath constraint: `(.*)` cannot match a newline. -/
def SubOk : Option (List Char) → Prop
  | none => True
  | some sub => nlChar ∉ sub

/-- The spec the parser returns for a decomposed reference. -/
def specOf (ns model : List Char) (orev : Option (Char × List Char))
    (osub : Option (List Char)) : HuggingFaceSpec :=
  ⟨String.mk ns, String.mk model,
   match orev with
   | none => "main"
   | some (_, rev) => String.mk rev,
   match osub with
   | none => ""
   | some sub => String.mk sub⟩

instance : DecidablePred NsOk := fun ns => by
  unfold NsOk; infer_instance

instance : DecidablePred ModelOk := fun model => by
  unfold ModelOk; infer_instance

theorem toList_mk (l : List Char) : (String.mk l).toList = l := rfl

theorem parseHF_eq_core {src : String} {rest : List Char}
    (h : dropStart hfScheme src.toList = some rest) :
    ParseHuggingFaceSpec src = parseHFCore src rest := by
  unfold ParseHuggingFaceSpec
  rw [h]

theorem isSlash_false_of {c : Char} (h : c ≠ '/') : isSlash c = false := by
  simp [isSlash, h]

theorem isModelStop_false_of {c : Char} (h : c ≠ '/' ∧ c ≠ '@' ∧ c ≠ ':') :
    isModelStop c = false := by
  simp [isModelStop, h.1, h.2.1, h.2.2]

/-- Completeness of the parser: any reference assembled from well-formed
grammatical parts parses to the expected spec (revision defaulting to
`main`, subpath defaulting to empty). -/
theorem parse_hfBuild (ns model : List Char) (orev : Option (Char × List Char))
    (osub : Option (List Char)) (h1 : NsOk ns) (h2 : ModelOk model)
    (h3 : RevOk orev) (h4 : SubOk osub) :
    ParseHuggingFaceSpec (String.mk (hfBuild ns model orev osub)) =
      .ok (specOf ns model orev osub) := by
  obtain ⟨hns, hnsc⟩ := h1
  obtain ⟨hm, hmc⟩ := h2
  have hnsf : ∀ c ∈ ns, isSlash c = false := fun c hc => isSlash_false_of (hnsc c hc)
  have hmf : ∀ c ∈ model, isModelStop c = false := fun c hc => isModelStop_false_of (hmc c hc)
  have hdrop : dropStart hfScheme (String.mk (hfBuild ns model orev osub)).toList
      = some (ns ++ '/' :: (model ++ revPart orev ++ subPart osub)) := by
    rw [toList_mk]
    unfold hfBuild
    rw [List.append_assoc]
    exact dropStart_append _ _
  rw [parseHF_eq_core hdrop]
  rcases orev with _ | ⟨sep, rev⟩
  · rcases osub with _ | sub
    · simp only [revPart, subPart, List.append_nil]
      have hstep1 : takeUntil isSlash (ns ++ '/' :: model) = (ns, '/' :: model) :=
        takeUntil_stop _ _ hnsf _ (by decide) _
      have hstep2 : takeUntil isModelStop model = (model, []) := takeUntil_all _ _ hmf
      simp [parseHFCore, parseAfterModel, hstep1, hstep2, hns, hm, specOf]
    · have h4' : hasNl sub = false := (hasNl_eq_false sub).mpr h4
      simp only [revPart, subPart, List.append_nil]
      have hstep1 : takeUntil isSlash (ns ++ '/' :: (model ++ '/' :: sub))
          = (ns, '/' :: (model ++ '/' :: sub)) :=
        takeUntil_stop _ _ hnsf _ (by decide) _
      have hstep2 : takeUntil isModelStop (model ++ '/' :: sub) = (model, '/' :: sub) :=
        takeUntil_stop _ _ hmf _ (by decide) _
      simp [parseHFCore, parseAfterModel, hstep1, hstep2, hns, hm, h4', specOf]
  · obtain ⟨hsep, hrev, hrevc⟩ := h3
    have hrevf : ∀ c ∈ rev, isSlash c = false := fun c hc => isSlash_false_of (hrevc c hc)
    have hsepStop : isModelStop sep = true := by
      rcases hsep with rfl | rfl <;> decide
    have hsepSlash : ¬ sep = '/' := by
      rcases hsep with rfl | rfl <;> decide
    rcases osub with _ | sub
    · simp only [revPart, subPart, List.append_nil, List.append_assoc, List.cons_append]
      have hstep1 : takeUntil isSlash (ns ++ '/' :: (model ++ sep :: rev))
          = (ns, '/' :: (model ++ sep :: rev)) :=
        takeUntil_stop _ _ hnsf _ (by decide) _
      have hstep2 : takeUntil isModelStop (model ++ sep :: rev) = (model, sep :: rev) :=
        takeUntil_stop _ _ hmf _ hsepStop _
      have hstep3 : takeUntil isSlash rev = (rev, []) := takeUntil_all _ _ hrevf
      simp [parseHFCore, parseAfterModel, parseRev, hstep1, hstep2, hstep3, hns, hm,
        hrev, hsepSlash, specOf]
    · have h4' : hasNl sub = false := (hasNl_eq_false sub).mpr h4
      simp only [revPart, subPart, List.append_assoc, List.cons_append]
      have hstep1 : takeUntil isSlash (ns ++ '/' :: (model ++ sep :: (rev ++ '/' :: sub)))
          = (ns, '/' :: (model ++ sep :: (rev ++ '/' :: sub))) :=
        takeUntil_stop _ _ hnsf _ (by decide) _
      have hstep2 : takeUntil isModelStop (model ++ sep :: (rev ++ '/' :: sub))
          = (model, sep :: (rev ++ '/' :: sub)) :=
        takeUntil_stop _ _ hmf _ hsepStop _
      have hstep3 : takeUntil isSlash (rev ++ '/' :: sub) = (rev, '/' :: sub) :=
        takeUntil_stop _ _ hrevf _ (by decide) _
      simp [parseHFCore, parseAfterModel, parseRev, hstep1, hstep2, hstep3, hns, hm,
        hrev, hsepSlash, h4', specOf]

theorem parseRev_sound {src : String} {ns model r4 : List Char} {spec : HuggingFaceSpec}
    (h : parseRev src ns model r4 = .ok spec) :
    ∃ rev osub, rev ≠ [] ∧ (∀ c ∈ rev, c ≠ '/') ∧ SubOk osub ∧
      r4 = rev ++ subPart osub ∧
      spec = ⟨String.mk ns, String.mk model, String.mk rev,
        match osub with | none => "" | some r6 => String.mk r6⟩ := by
  unfold parseRev at h
  obtain ⟨hr4eq, hrevall, hr5hd⟩ := takeUntil_eq isSlash r4 _ _ Prod.mk.eta.symm
  have hrevok : ∀ c ∈ (takeUntil isSlash r4).1, c ≠ '/' := fun c hc => by
    have := hrevall c hc
    simp only [isSlash, beq_eq_false_iff_ne] at this
    exact this
  by_cases hrev : (takeUntil isSlash r4).1 = []
  · rw [if_pos hrev] at h
    exact absurd h (by simp [hfInvalid])
  · rw [if_neg hrev] at h
    split at h
    · rename_i heq2
      injection h with h
      exact ⟨_, none, hrev, hrevok, trivial,
        hr4eq.trans (by rw [heq2]; simp [subPart]), h.symm⟩
    · rename_i hd2 r6 heq2
      by_cases hnl : hasNl r6 = true
      · rw [if_pos hnl] at h
        exact absurd h (by simp [hfInvalid])
      · rw [if_neg hnl] at h
        injection h with h
        have hd2slash : hd2 = '/' := by
          have := hr5hd hd2 r6 heq2
          simp only [isSlash, beq_iff_eq] at this
          exact this
        exact ⟨_, some r6, hrev, hrevok, (hasNl_eq_false r6).mp (by simpa using hnl),
          hr4eq.trans (by rw [heq2, hd2slash]; simp [subPart]), h.symm⟩

theorem parseAfterModel_sound {src : String} {ns model r3 : List Char}
    {spec : HuggingFaceSpec} (h : parseAfterModel src ns model r3 = .ok spec)
    (hstops : ∀ x r, r3 = x :: r → isModelStop x = true) :
    ∃ orev osub, RevOk orev ∧ SubOk osub ∧
      r3 = revPart orev ++ subPart osub ∧ spec = specOf ns model orev osub := by
  unfold parseAfterModel at h
  split at h
  · injection h with h
    exact ⟨none, none, trivial, trivial, by simp [revPart, subPart], by simp [specOf, h.symm]⟩
  · rename_i c r4
    split at h
    · rename_i hcSlash
      split at h
      · exact absurd h (by simp [hfInvalid])
      · rename_i hnl
        injection h with h
        refine ⟨none, some r4, trivial, (hasNl_eq_false r4).mp (by simpa using hnl),
          by simp [revPart, subPart, hcSlash], by simp [specOf, h.symm]⟩
    · rename_i hcSlash
      obtain ⟨rev, osub, hrev, hrevok, hsubok, hr4eq, hspec⟩ := parseRev_sound h
      have hcSep : c = '@' ∨ c = ':' := by
        have := hstops c r4 rfl
        simp only [isModelStop, Bool.or_eq_true, beq_iff_eq] at this
        rcases this with (hc | hc) | hc
        · exact absurd hc hcSlash
        · exact Or.inl hc
        · exact Or.inr hc
      refine ⟨some (c, rev), osub, ⟨hcSep, hrev, hrevok⟩, hsubok,
        by simp [revPart, hr4eq], ?_⟩
      rcases osub with _ | r6 <;> simpa [specOf] using hspec

/-- Soundness of the parser: a successful parse exhibits a decomposition of
the source into scheme, namespace, model, optional revision and optional
subpath, and the returned spec is assembled from those parts. -/
theorem parse_sound (src : String) (spec : HuggingFaceSpec)
    (h : ParseHuggingFaceSpec src = .ok spec) :
    ∃ ns model orev osub, NsOk ns ∧ ModelOk model ∧ RevOk orev ∧ SubOk osub ∧
      src.toList = hfBuild ns model orev osub ∧ spec = specOf ns model orev osub := by
  unfold ParseHuggingFaceSpec at h
  split at h
  · exact absurd h (by simp)
  · rename_i rest hd
    have hsrc : src.toList = hfScheme ++ rest := dropStart_sound _ _ _ hd
    unfold parseHFCore at h
    split at h
    · exact absurd h (by simp [hfInvalid])
    · rename_i ns hd0 afterNs ht1
      obtain ⟨hrest, hnsall, hr1hd⟩ := takeUntil_eq _ _ _ _ ht1
      have hd0slash : hd0 = '/' := by
        have := hr1hd hd0 afterNs rfl
        simp only [isSlash, beq_iff_eq] at this
        exact this
      have hnsOk : ∀ c ∈ ns, c ≠ '/' := fun c hc => by
        have := hnsall c hc
        simp only [isSlash, beq_eq_false_iff_ne] at this
        exact this
      by_cases hns : ns = []
      · rw [if_pos hns] at h
        exact absurd h (by simp [hfInvalid])
      · rw [if_neg hns] at h
        by_cases hm : (takeUntil isModelStop afterNs).1 = []
        · rw [if_pos hm] at h
          exact absurd h (by simp [hfInvalid])
        · rw [if_neg hm] at h
          obtain ⟨hafter, hmall, hr3hd⟩ := takeUntil_eq isModelStop afterNs _ _ Prod.mk.eta.symm
          obtain ⟨orev, osub, hrevok, hsubok, hr3eq, hspec⟩ := parseAfterModel_sound h hr3hd
          refine ⟨ns, _, orev, osub, ⟨hns, hnsOk⟩, ⟨hm, fun c hc => ?_⟩,
            hrevok, hsubok, ?_, hspec⟩
          · have := hmall c hc
            simp only [isModelStop, Bool.or_eq_false_iff, beq_eq_false_iff_ne] at this
            exact ⟨this.1.1, this.1.2, this.2⟩
          · rw [hsrc, hrest, hd0slash]
            unfold hfBuild
            conv_lhs => rw [hafter, hr3eq]
            simp [List.append_assoc]

/-! ### Snapshot builder and source resolver

`buildHuggingFaceState` (in `build_hf.go`) checks the scheme, parses the
reference and, on success, produces the snapshot-download graph node; a
parse failure is wrapped as `invalid huggingface source: <cause>`.

`resolveSourceState` (documented in the repository's resolver file)
dispatches on the source string: local context for `""`, `"."`,
`"context"`; an HTTP fetch node for `http(s)://` (with the URL basename
enforced when `preserveHTTPFilename`); for `huggingface://`, single-file
download exactly when the part after the scheme contains at least
`minPathDepthForHFFile = 2` slashes and parsing succeeds with a non-empty
subpath, the snapshot builder otherwise; any other string becomes a local
include pattern (with `**` appended to directory-style patterns). -/

/-- Graph nodes a source reference resolves to (the `llb.State` shapes
`resolveSourceState` can construct, keeping the data that determines them). -/
inductive ResolvedSource where
  | localContext
  | httpFile (url : String) (filename : Option String)
  | hfSingleFile (spec : HuggingFaceSpec)
  | hfSnapshot (spec : HuggingFaceSpec) (exclude : String)
  | localInclude (pattern : String)
deriving DecidableEq, Repr

/-- `path.Base` from Go's standard library: empty input gives `.`, trailing
slashes are stripped, all-slash input gives `/`, otherwise the last path
element. -/
def pathBase (s : List Char) : List Char :=
  if s = [] then ['.']
  else
    let t := s.reverse.dropWhile isSlash
    if t = [] then ['/']
    else (t.takeWhile (fun c => !(isSlash c))).reverse

/-- `minPathDepthForHFFile` from the resolver. -/
def minPathDepthForHFFile : Nat := 2

/-- Number of `/` separators in a character list (`strings.Count`). -/
def countSlashes (l : List Char) : Nat := l.countP isSlash

/-- `buildHuggingFaceState`: scheme check, parse, snapshot node.  (The error
text of the Go `%w` wrapping is the wrapped message appended to
`invalid huggingface source: `.) -/
def buildHuggingFaceState (source exclude : String) :
    Except String ResolvedSource :=
  match dropStart hfScheme source.toList with
  | none => .error ("not a huggingface source: " ++ source)
  | some _ =>
    match ParseHuggingFaceSpec source with
    | .error e => .error ("invalid huggingface source: " ++ e)
    | .ok spec => .ok (.hfSnapshot spec exclude)

/-- The snapshot fallback of the resolver's `huggingface://` branch; a
builder error is wrapped as `failed to build huggingface state for "<src>":
<cause>` (Go quotes the source with `%q`; only the surrounding double quotes
are modelled, which no claim depends on). -/
def hfFallback (source exclude : String) : Except String ResolvedSource :=
  match buildHuggingFaceState source exclude with
  | .error e =>
    .error ("failed to build huggingface state for " ++
      String.mk (dquote :: source.toList ++ [dquote]) ++ ": " ++ e)
  | .ok st => .ok st

/-- The inner dispatch of the resolver's `huggingface://` branch once the
separator count admits a file path: single-file download when parsing
succeeds with a non-empty subpath, the snapshot fallback otherwise. -/
def hfDispatch (source exclude : String) : Except String ResolvedSource :=
  match ParseHuggingFaceSpec source with
  | .ok spec =>
    if spec.SubPath ≠ "" then .ok (.hfSingleFile spec)
    else hfFallback source exclude
  | .error _ => hfFallback source exclude

/-- `resolveSourceState` from the resolver file (the `sessionID` determines
only the local-mount session key and does not affect dispatch). -/
def resolveSourceState (source _sessionID : String) (preserveHTTPFilename : Bool)
    (exclude : String) : Except String ResolvedSource :=
  if source = "" ∨ source = "." ∨ source = "context" then .ok .localContext
  else if "https://".toList.isPrefixOf source.toList ∨
      "http://".toList.isPrefixOf source.toList then
    if preserveHTTPFilename then
      .ok (.httpFile source (some (String.mk (pathBase source.toList))))
    else .ok (.httpFile source none)
  else
    match dropStart hfScheme source.toList with
    | some trimmed =>
      if minPathDepthForHFFile ≤ countSlashes trimmed then hfDispatch source exclude
      else hfFallback source exclude
    | none =>
      .ok (.localInclude
        (if "/".toList.isSuffixOf source.toList then source ++ "**" else source))

/-! ### Exclusion-pattern scanning (`parseExcludePatterns`)

A single left-to-right scan with one `inQuote` flag: a single or double
quote toggles the flag; characters accumulate into the current token only
while inside quotes; on a closing quote a non-empty token is appended and
reset; a trailing non-empty token is appended at end of input.  The Go
function short-circuits an empty input to `nil`. -/

/-- A quote character per the Go test `ch == '\x27' || ch == '"'`. -/
def isQuoteCh (c : Char) : Bool := c == squote || c == dquote

/-- The scanning loop of `parseExcludePatterns`: remaining input, current
token, `inQuote` flag, accumulated patterns. -/
def pepLoop : List Char → List Char → Bool → List (List Char) → List (List Char)
  | [], current, _, acc => if current.isEmpty then acc else acc ++ [current]
  | ch :: rest, current, inQuote, acc =>
    if isQuoteCh ch then
      if inQuote then
        if current.isEmpty then pepLoop rest current false acc
        else pepLoop rest [] false (acc ++ [current])
      else pepLoop rest current true acc
    else if inQuote then pepLoop rest (current ++ [ch]) inQuote acc
    else pepLoop rest current inQuote acc

/-- `parseExcludePatterns` from `build_helpers.go` (a `nil` result and an
empty list are both modelled as `[]`). -/
def parseExcludePatterns (exclude : String) : List String :=
  if exclude = "" then []
  else (pepLoop exclude.toList [] false []).map String.mk

/-! #### The scanner as worded by the spec (for the refinement claim C7) -/

/-- Tokens produced by the scan are non-empty and quote-free, given that the
accumulator and current token already are. -/
theorem pepLoop_clean (l : List Char) :
    ∀ (cur : List Char) (inQ : Bool) (acc : List (List Char)),
      (∀ p ∈ acc, p ≠ [] ∧ ∀ c ∈ p, isQuoteCh c = false) →
      (∀ c ∈ cur, isQuoteCh c = false) →
      ∀ p ∈ pepLoop l cur inQ acc, p ≠ [] ∧ ∀ c ∈ p, isQuoteCh c = false := by
  induction l with
  | nil =>
    intro cur inQ acc hacc hcur p hp
    simp only [pepLoop] at hp
    by_cases hc : cur.isEmpty
    · rw [if_pos hc] at hp
      exact hacc p hp
    · rw [if_neg hc] at hp
      rcases List.mem_append.mp hp with hp | hp
      · exact hacc p hp
      · have : p = cur := by simpa using hp
        subst this
        exact ⟨by simpa using hc, hcur⟩
  | cons c cs ih =>
    intro cur inQ acc hacc hcur p hp
    simp only [pepLoop] at hp
    by_cases hq : isQuoteCh c = true
    · rw [if_pos hq] at hp
      cases inQ with
      | false =>
        simp only [Bool.false_eq_true, if_false] at hp
        exact ih cur true acc hacc hcur p hp
      | true =>
        simp only [if_true] at hp
        by_cases hce : cur.isEmpty
        · rw [if_pos hce] at hp
          exact ih cur false acc hacc hcur p hp
        · rw [if_neg hce] at hp
          refine ih [] false (acc ++ [cur]) ?_ (by simp) p hp
          intro q hq'
          rcases List.mem_append.mp hq' with hq' | hq'
          · exact hacc q hq'
          · have : q = cur := by simpa using hq'
            subst this
            exact ⟨by simpa using hce, hcur⟩
    · rw [if_neg hq] at hp
      cases inQ with
      | false =>
        simp only [Bool.false_eq_true, if_false] at hp
        exact ih cur false acc hacc hcur p hp
      | true =>
        simp only [if_true] at hp
        refine ih (cur ++ [c]) true acc hacc ?_ p hp
        intro d hd
        rcases List.mem_append.mp hd with hd | hd
        · exact hcur d hd
        · have : d = c := by simpa using hd
          subst this
          simpa using hq

/-! ### Build configuration and driver control flow

`parseBuildConfig` (frontend driver) reads the BuildKit option map.  The
map is modelled as an association list; `getBuildArg` looks up
`build-arg:<k>` and defaults to the empty string, exactly as a missing Go
map key yields `""`. -/

/-- `buildConfig` from the frontend driver. -/
structure BuildConfigRec where
  source : String
  exclude : String
  packMode : String
  name : String
  refName : String
  sessionID : String
  genericOutputMode : String
  debug : Bool
deriving DecidableEq, Repr

/-- `getBuildArg`: option-map lookup of `build-arg:<k>`, defaulting to `""`
(a missing key and an empty value are indistinguishable, as in Go). -/
def getBuildArg (opts : List (String × String)) (k : String) : String :=
  match opts.lookup ("build-arg:" ++ k) with
  | some v => v
  | none => ""

/-- `determineName`: the `name` option or the fallback title `aikitmodel`. -/
def determineName (opts : List (String × String)) : String :=
  if getBuildArg opts "name" = "" then "aikitmodel" else getBuildArg opts "name"

/-- `determineRefName`: the `name` option or the fallback ref `latest`. -/
def determineRefName (opts : List (String × String)) : String :=
  if getBuildArg opts "name" = "" then "latest" else getBuildArg opts "name"

/-- `parseBuildConfig`: build the record, fail when `source` is missing or
empty, default the pack mode to `raw`, read `generic_output_mode` only for
the generic target. -/
def parseBuildConfig (opts : List (String × String)) (sessionID : String)
    (isModelpack : Bool) : Except String BuildConfigRec :=
  let cfg : BuildConfigRec :=
    ⟨getBuildArg opts "source", getBuildArg opts "exclude",
     getBuildArg opts "layer_packaging", determineName opts, determineRefName opts,
     sessionID, "", getBuildArg opts "debug" = "1"⟩
  if cfg.source = "" then
    .error ("source is required for " ++
      (if isModelpack then "modelpack" else "generic") ++ " target")
  else
    let cfg := if cfg.packMode = "" then { cfg with packMode := "raw" } else cfg
    let cfg :=
      if isModelpack then cfg
      else { cfg with genericOutputMode := getBuildArg opts "generic_output_mode" }
    .ok cfg

/-- Control-flow model of `BuildModelpack` / `BuildGeneric`: options are
parsed first; only on success is the source resolved (with
`preserveHTTPFilename` true exactly for the modelpack target), and only
after that are the assembler graph constructed and submitted for solving.
A config-parse failure therefore propagates before any graph exists. -/
def buildTargetModel (opts : List (String × String)) (sessionID : String)
    (isModelpack : Bool) : Except String (BuildConfigRec × ResolvedSource) := do
  let cfg ← parseBuildConfig opts sessionID isModelpack
  let st ← resolveSourceState cfg.source cfg.sessionID isModelpack cfg.exclude
  pure (cfg, st)

/-! ### Layer-count lemmas -/

theorem categoryLayerCount_raw (c : Category) (files : List FileRec) :
    categoryLayerCount .raw c files = (catFiles c files).length := rfl

theorem categoryLayerCount_archive_w (m : PackMode) (hm : m ≠ .raw) (files : List FileRec) :
    categoryLayerCount m .weights files = (catFiles .weights files).length := by
  cases m
  · exact absurd rfl hm
  all_goals
    show (if (catFiles .weights files).length = 0 then 0
      else if Category.weights = Category.weights then (catFiles .weights files).length
      else 1) = (catFiles .weights files).length
    rw [if_pos rfl]
    split <;> omega

theorem categoryLayerCount_archive_other (m : PackMode) (hm : m ≠ .raw)
    (c : Category) (hc : c ≠ .weights) (files : List FileRec) :
    categoryLayerCount m c files = if (catFiles c files).length = 0 then 0 else 1 := by
  cases m
  · exact absurd rfl hm
  all_goals
    show (if (catFiles c files).length = 0 then 0
      else if c = Category.weights then (catFiles c files).length else 1) = _
    rw [if_neg hc]

theorem modelpack_archive_count (m : PackMode) (hm : m ≠ .raw) (files : List FileRec) :
    modelpackLayerCount m files
      = (catFiles .weights files).length + nonEmptyNonWeightsCount files ∧
    modelpackLayerCount m files ≤ files.length := by
  have hsum := catFiles_length_sum files
  unfold modelpackLayerCount
  rw [categoryLayerCount_archive_w m hm,
      categoryLayerCount_archive_other m hm .config (by decide),
      categoryLayerCount_archive_other m hm .docs (by decide),
      categoryLayerCount_archive_other m hm .code (by decide),
      categoryLayerCount_archive_other m hm .dataset (by decide)]
  unfold nonEmptyNonWeightsCount
  constructor <;> (split_ifs <;> omega)

/-! ### Claim theorems -/

/-- C1: for every enumerated non-excluded file list and every build
configuration, the modelpack assembler in `raw` pack mode emits exactly one
layer per file (layer count = file count); in `tar`, `tar+gzip` and
`tar+zstd` modes it emits exactly one layer per weights file and exactly one
aggregated layer per non-empty non-weights category, so the layer count is
at most the file count. -/
theorem C1_modelpack_layer_counts (files : List FileRec) :
    modelpackLayerCount .raw files = files.length ∧
    modelpackLayerCount .tar files
      = (catFiles .weights files).length + nonEmptyNonWeightsCount files ∧
    modelpackLayerCount .targz files
      = (catFiles .weights files).length + nonEmptyNonWeightsCount files ∧
    modelpackLayerCount .tarzst files
      = (catFiles .weights files).length + nonEmptyNonWeightsCount files ∧
    modelpackLayerCount .tar files ≤ files.length ∧
    modelpackLayerCount .targz files ≤ files.length ∧
    modelpackLayerCount .tarzst files ≤ files.length := by
  refine ⟨?_, (modelpack_archive_count .tar (by decide) files).1,
    (modelpack_archive_count .targz (by decide) files).1,
    (modelpack_archive_count .tarzst (by decide) files).1,
    (modelpack_archive_count .tar (by decide) files).2,
    (modelpack_archive_count .targz (by decide) files).2,
    (modelpack_archive_count .tarzst (by decide) files).2⟩
  unfold modelpackLayerCount
  rw [categoryLayerCount_raw, categoryLayerCount_raw, categoryLayerCount_raw,
      categoryLayerCount_raw, categoryLayerCount_raw]
  exact catFiles_length_sum files

/-- C2: the classifier of the modelpack script assigns every non-excluded
file exactly one category (it is a total function), testing the lowercased
basename against the category globs in the order weights, docs, config,
code, dataset — first match winning — and falling back to weights for
unmatched files above 10485760 bytes and to config otherwise; this agrees
with the classification the claim describes glob by glob. -/
theorem C2_classifier_refines_claim (f : List Char) (sz : Nat) :
    categorize f sz = categorizeClaim f sz := by
  simp only [categorize, categorizeClaim, largeFileThreshold, docsGlob_eq_claim]

/-- C3 counterexample: for the generic target, in `tar+gzip` mode the single
aggregated layer's media type is the plain
`application/vnd.oci.image.layer.v1.tar` — not
`application/vnd.oci.image.layer.v1.tar+gzip` as claimed — and likewise in
`tar+zstd` mode (the script's `archiveLayerMT` is always
`ocispec.MediaTypeImageLayer`). -/
theorem C3_generic_archive_mt_cex :
    genericLayerMT "tar+gzip" "application/vnd.unknown.artifact.v1" "aikitmodel"
        "latest" false = some "application/vnd.oci.image.layer.v1.tar" ∧
    ¬ genericLayerMT "tar+gzip" "application/vnd.unknown.artifact.v1" "aikitmodel"
        "latest" false = some "application/vnd.oci.image.layer.v1.tar+gzip" ∧
    genericLayerMT "tar+zstd" "application/vnd.unknown.artifact.v1" "aikitmodel"
        "latest" false = some "application/vnd.oci.image.layer.v1.tar" ∧
    ¬ genericLayerMT "tar+zstd" "application/vnd.unknown.artifact.v1" "aikitmodel"
        "latest" false = some "application/vnd.oci.image.layer.v1.tar+zstd" :=
  ⟨rfl, by decide, rfl, by decide⟩

/-- C3 (amended): for the generic target, for every name, refName and
artifactType, every layer media type in `raw` pack mode is
`application/octet-stream`, and in all three archive modes (`tar`,
`tar+gzip`, `tar+zstd`) the single aggregated layer's media type is
`application/vnd.oci.image.layer.v1.tar`. -/
theorem C3_generic_layer_media_types (artifactType name refName : String) (debug : Bool) :
    genericLayerMT "raw" artifactType name refName debug
      = some "application/octet-stream" ∧
    genericLayerMT "tar" artifactType name refName debug
      = some "application/vnd.oci.image.layer.v1.tar" ∧
    genericLayerMT "tar+gzip" artifactType name refName debug
      = some "application/vnd.oci.image.layer.v1.tar" ∧
    genericLayerMT "tar+zstd" artifactType name refName debug
      = some "application/vnd.oci.image.layer.v1.tar" :=
  ⟨rfl, rfl, rfl, rfl⟩

instance : DecidablePred RevOk := fun o =>
  match o with
  | none => .isTrue trivial
  | some (sep, rev) => by
    unfold RevOk
    infer_instance

instance : DecidablePred SubOk := fun o =>
  match o with
  | none => .isTrue trivial
  | some sub => by
    unfold SubOk
    infer_instance

/-- C4 (amended): `ParseHuggingFaceSpec` accepts exactly the references
`huggingface://<namespace>/<model>[(@|:)<revision>][/<subpath>]` with
non-empty namespace (no `/`), non-empty model (no `/`, `@`, `:`), non-empty
revision (no `/`) and a subpath containing no newline character —
completeness: every reference assembled from such well-formed parts parses
to the spec built from them (so with the revision omitted it is `main`, and
with it present it is the given one); soundness: every accepted reference
decomposes this way; the `@` and `:` separators yield identical results;
and every malformed reference with the `huggingface://` scheme makes the
snapshot builder fail with an error beginning `invalid huggingface source`
(concretely so for `huggingface://org`). -/
theorem C4_hf_parse :
    (∀ src : String,
      (∃ spec, ParseHuggingFaceSpec src = .ok spec) ↔
      (∃ ns model orev osub, NsOk ns ∧ ModelOk model ∧ RevOk orev ∧ SubOk osub ∧
        src.toList = hfBuild ns model orev osub ∧
        ParseHuggingFaceSpec src = .ok (specOf ns model orev osub))) ∧
    (∀ (ns model : List Char) (orev : Option (Char × List Char))
        (osub : Option (List Char)),
      NsOk ns → ModelOk model → RevOk orev → SubOk osub →
      ParseHuggingFaceSpec (String.mk (hfBuild ns model orev osub))
        = .ok (specOf ns model orev osub)) ∧
    (∀ (ns model rev : List Char) (osub : Option (List Char)),
      NsOk ns → ModelOk model → RevOk (some ('@', rev)) → SubOk osub →
      ParseHuggingFaceSpec (String.mk (hfBuild ns model (some ('@', rev)) osub)) =
        ParseHuggingFaceSpec (String.mk (hfBuild ns model (some (':', rev)) osub))) ∧
    (∀ (ns model : List Char) (osub : Option (List Char)),
      NsOk ns → ModelOk model → SubOk osub →
      ∃ spec, ParseHuggingFaceSpec (String.mk (hfBuild ns model none osub)) = .ok spec ∧
        spec.Revision = "main") ∧
    (∀ (source exclude e : String),
      ParseHuggingFaceSpec source = .error e →
      (dropStart hfScheme source.toList).isSome = true →
      buildHuggingFaceState source exclude
        = .error ("invalid huggingface source: " ++ e)) ∧
    buildHuggingFaceState "huggingface://org" ""
      = .error "invalid huggingface source: invalid huggingface spec: huggingface://org" := by
  refine ⟨?_, parse_hfBuild, ?_, ?_, ?_, rfl⟩
  · intro src
    constructor
    · rintro ⟨spec, h⟩
      obtain ⟨ns, model, orev, osub, h1, h2, h3, h4, h5, h6⟩ := parse_sound src spec h
      exact ⟨ns, model, orev, osub, h1, h2, h3, h4, h5, by rw [h, h6]⟩
    · rintro ⟨ns, model, orev, osub, _, _, _, _, _, h6⟩
      exact ⟨_, h6⟩
  · intro ns model rev osub h1 h2 h3 h4
    rw [parse_hfBuild ns model (some ('@', rev)) osub h1 h2 h3 h4,
        parse_hfBuild ns model (some (':', rev)) osub h1 h2 ⟨Or.inr rfl, h3.2⟩ h4]
    rfl
  · intro ns model osub h1 h2 h4
    exact ⟨_, parse_hfBuild ns model none osub h1 h2 trivial h4, rfl⟩
  · intro source exclude e he hsome
    unfold buildHuggingFaceState
    obtain ⟨r, hr⟩ := Option.isSome_iff_exists.mp hsome
    rw [hr, he]

/-- C4 counterexample: `huggingface://a/b/c\nd` is of the claimed form
(namespace `a`, model `b`, no revision, subpath `c\nd`) yet
`ParseHuggingFaceSpec` rejects it, because the `(.*)` subpath group of the
Go RE2 pattern cannot match a newline. -/
theorem C4_hf_parse_cex :
    "huggingface://a/b/c\nd".toList
      = hfBuild "a".toList "b".toList none (some "c\nd".toList) ∧
    NsOk "a".toList ∧ ModelOk "b".toList ∧
    ParseHuggingFaceSpec "huggingface://a/b/c\nd"
      = .error "invalid huggingface spec: huggingface://a/b/c\nd" :=
  ⟨by decide, by decide, by decide, rfl⟩

/-- C4 witness: concrete instances of the characterization — a full
reference parses, a well-formed explicit-revision reference with a subpath
is accepted with the expected fields (completeness), the two separators
agree, the omitted revision defaults to `main`, and the malformed
`huggingface://bad` fails the snapshot builder with the
`invalid huggingface source` error. -/
theorem C4_hf_parse_witness :
    (∃ spec, ParseHuggingFaceSpec "huggingface://org/model@rev1/sub/file.bin"
      = .ok spec) ∧
    ParseHuggingFaceSpec
        (String.mk (hfBuild "org".toList "model".toList
          (some ('@', "rev1".toList)) (some "a/b".toList)))
      = .ok (specOf "org".toList "model".toList
          (some ('@', "rev1".toList)) (some "a/b".toList)) ∧
    ParseHuggingFaceSpec
        (String.mk (hfBuild "org".toList "model".toList (some ('@', "r".toList)) none))
      = ParseHuggingFaceSpec
        (String.mk (hfBuild "org".toList "model".toList (some (':', "r".toList)) none)) ∧
    (∃ spec, ParseHuggingFaceSpec
        (String.mk (hfBuild "org".toList "model".toList none none)) = .ok spec ∧
      spec.Revision = "main") ∧
    buildHuggingFaceState "huggingface://bad" ""
      = .error ("invalid huggingface source: "
          ++ "invalid huggingface spec: huggingface://bad") := by
  refine ⟨?_, ?_, ?_, ?_, ?_⟩
  · exact (C4_hf_parse.1 "huggingface://org/model@rev1/sub/file.bin").mpr
      ⟨"org".toList, "model".toList, some ('@', "rev1".toList),
        some "sub/file.bin".toList, by decide, by decide, by decide, by decide,
        by decide, rfl⟩
  · exact C4_hf_parse.2.1 "org".toList "model".toList
      (some ('@', "rev1".toList)) (some "a/b".toList)
      (by decide) (by decide) (by decide) (by decide)
  · exact C4_hf_parse.2.2.1 "org".toList "model".toList "r".toList none
      (by decide) (by decide) (by decide) trivial
  · exact C4_hf_parse.2.2.2.1 "org".toList "model".toList none
      (by decide) (by decide) trivial
  · exact C4_hf_parse.2.2.2.2.1 "huggingface://bad" ""
      "invalid huggingface spec: huggingface://bad" rfl rfl

theorem hfFallback_ne_single (source exclude : String) (spec : HuggingFaceSpec) :
    hfFallback source exclude ≠ .ok (.hfSingleFile spec) := by
  unfold hfFallback
  split
  · simp
  · rename_i st hok
    unfold buildHuggingFaceState at hok
    split at hok
    · exact absurd hok (by simp)
    · split at hok
      · exact absurd hok (by simp)
      · injection hok with hok
        rw [← hok]
        simp

theorem hfDispatch_error {source e : String}
    (h : ParseHuggingFaceSpec source = .error e) (exclude : String) :
    hfDispatch source exclude = hfFallback source exclude := by
  unfold hfDispatch
  rw [h]

theorem hfDispatch_ok {source : String} {spec : HuggingFaceSpec}
    (h : ParseHuggingFaceSpec source = .ok spec) (exclude : String) :
    hfDispatch source exclude =
      if spec.SubPath ≠ "" then .ok (.hfSingleFile spec)
      else hfFallback source exclude := by
  unfold hfDispatch
  rw [h]

/-- With the `huggingface://` scheme present, `resolveSourceState` reduces to
its Hugging Face branch. -/
theorem resolve_hf_branch {source : String} {t : List Char}
    (h : dropStart hfScheme source.toList = some t)
    (sessionID exclude : String) (preserve : Bool) :
    resolveSourceState source sessionID preserve exclude =
      (if minPathDepthForHFFile ≤ countSlashes t then hfDispatch source exclude
      else hfFallback source exclude) := by
  have hs : source.toList = hfScheme ++ t := dropStart_sound _ _ _ h
  have h1 : ¬(source = "" ∨ source = "." ∨ source = "context") := by
    rintro (rfl | rfl | rfl) <;> exact Option.noConfusion h
  have h2 : ¬("https://".toList.isPrefixOf source.toList ∨
      "http://".toList.isPrefixOf source.toList) := by
    rw [hs]
    rintro (hp | hp)
    · rw [show "https://".toList.isPrefixOf (hfScheme ++ t) = false from rfl] at hp
      exact Bool.noConfusion hp
    · rw [show "http://".toList.isPrefixOf (hfScheme ++ t) = false from rfl] at hp
      exact Bool.noConfusion hp
  unfold resolveSourceState
  rw [if_neg h1, if_neg h2, h]

/-- C5: for every source starting with `huggingface://`, the resolver
dispatches to the single-file download exactly when the suffix after the
scheme contains at least two `/` separators and parsing succeeds with a
non-empty subpath; in every other case (fewer separators, parse failure, or
an empty parsed subpath) it takes the full-repository snapshot path. -/
theorem C5_hf_dispatch (source sessionID exclude : String) (preserve : Bool)
    {trimmed : List Char} (hpre : dropStart hfScheme source.toList = some trimmed) :
    ((∃ spec, resolveSourceState source sessionID preserve exclude
        = .ok (.hfSingleFile spec)) ↔
      (2 ≤ countSlashes trimmed ∧
        ∃ spec, ParseHuggingFaceSpec source = .ok spec ∧ spec.SubPath ≠ "")) ∧
    (¬(2 ≤ countSlashes trimmed ∧
        ∃ spec, ParseHuggingFaceSpec source = .ok spec ∧ spec.SubPath ≠ "") →
      resolveSourceState source sessionID preserve exclude
        = hfFallback source exclude) := by
  rw [resolve_hf_branch hpre sessionID exclude preserve]
  by_cases hcount : minPathDepthForHFFile ≤ countSlashes trimmed
  · rw [if_pos hcount]
    cases hparse : ParseHuggingFaceSpec source with
    | error e =>
      rw [hfDispatch_error hparse exclude]
      constructor
      · constructor
        · rintro ⟨spec, hok⟩
          exact absurd hok (hfFallback_ne_single source exclude spec)
        · rintro ⟨_, spec, hok, _⟩
          exact Except.noConfusion hok
      · intro _
        rfl
    | ok spec0 =>
      rw [hfDispatch_ok hparse exclude]
      by_cases hsub : spec0.SubPath ≠ ""
      · rw [if_pos hsub]
        constructor
        · constructor
          · intro _
            exact ⟨hcount, spec0, rfl, hsub⟩
          · intro _
            exact ⟨spec0, rfl⟩
        · intro hno
          exact absurd ⟨hcount, spec0, rfl, hsub⟩ hno
      · rw [if_neg hsub]
        constructor
        · constructor
          · rintro ⟨spec, hok⟩
            exact absurd hok (hfFallback_ne_single source exclude spec)
          · rintro ⟨_, spec, hok, hsub'⟩
            injection hok with hok
            subst hok
            exact absurd hsub' hsub
        · intro _
          rfl
  · rw [if_neg hcount]
    constructor
    · constructor
      · rintro ⟨spec, hok⟩
        exact absurd hok (hfFallback_ne_single source exclude spec)
      · rintro ⟨hc, _⟩
        exact absurd hc hcount
    · intro _
      rfl

/-- C5 witness: `huggingface://org/model/file.bin` (two separators after the
scheme, non-empty subpath) resolves to the single-file download. -/
theorem C5_hf_dispatch_witness :
    ∃ spec, resolveSourceState "huggingface://org/model/file.bin" "sid" true ""
      = .ok (.hfSingleFile spec) :=
  (C5_hf_dispatch "huggingface://org/model/file.bin" "sid" "" true rfl).1.mpr
    ⟨by decide, ⟨"org", "model", "main", "file.bin"⟩, rfl, by decide⟩

/-- C8: `parseBuildConfig` fails exactly when the `source` option is missing
or empty; the message is `source is required for modelpack target` for the
modelpack target and `source is required for generic target` for the
generic one, and the driver model propagates this failure before source
resolution (and hence before any graph construction or solve). -/
theorem C8_source_required (opts : List (String × String)) (sid : String)
    (isModelpack : Bool) :
    ((∃ e, parseBuildConfig opts sid isModelpack = .error e) ↔
      getBuildArg opts "source" = "") ∧
    (getBuildArg opts "source" = "" →
      parseBuildConfig opts sid isModelpack
        = .error ("source is required for "
            ++ (if isModelpack then "modelpack" else "generic") ++ " target") ∧
      buildTargetModel opts sid isModelpack
        = .error ("source is required for "
            ++ (if isModelpack then "modelpack" else "generic") ++ " target")) := by
  by_cases hsrc : getBuildArg opts "source" = ""
  · have hpc : parseBuildConfig opts sid isModelpack
        = .error ("source is required for "
            ++ (if isModelpack then "modelpack" else "generic") ++ " target") := by
      simp [parseBuildConfig, hsrc]
    have hbt : buildTargetModel opts sid isModelpack
        = .error ("source is required for "
            ++ (if isModelpack then "modelpack" else "generic") ++ " target") := by
      unfold buildTargetModel
      rw [hpc]
      rfl
    exact ⟨⟨fun _ => hsrc, fun _ => ⟨_, hpc⟩⟩, fun _ => ⟨hpc, hbt⟩⟩
  · refine ⟨⟨?_, fun h => absurd h hsrc⟩, fun h => absurd h hsrc⟩
    rintro ⟨e, he⟩
    simp only [parseBuildConfig] at he
    rw [if_neg hsrc] at he
    exact Except.noConfusion he

/-- C8 witness: with an empty option map the modelpack target fails with the
exact message, both at option parsing and in the driver model. -/
theorem C8_source_required_witness :
    parseBuildConfig [] "sid" true = .error "source is required for modelpack target" ∧
    buildTargetModel [] "sid" true = .error "source is required for modelpack target" :=
  (C8_source_required [] "sid" true).2 rfl

/-- C9: every pattern returned by `parseExcludePatterns` is non-empty and
contains neither a single-quote nor a double-quote character. -/
theorem C9_exclude_patterns_clean (s p : String)
    (hp : p ∈ parseExcludePatterns s) :
    p ≠ "" ∧ ∀ c ∈ p.toList, c ≠ squote ∧ c ≠ dquote := by
  unfold parseExcludePatterns at hp
  by_cases hs : s = ""
  · rw [if_pos hs] at hp
    exact absurd hp (by simp)
  · rw [if_neg hs] at hp
    obtain ⟨q, hq, rfl⟩ := List.mem_map.mp hp
    obtain ⟨hqne, hqc⟩ := pepLoop_clean s.toList [] false [] (by simp) (by simp) q hq
    constructor
    · intro hmk
      exact hqne (congrArg String.data hmk)
    · intro c hc
      have := hqc c hc
      simp only [isQuoteCh, Bool.or_eq_false_iff, beq_eq_false_iff_ne] at this
      exact this

/-- C9 witness: the invariant at the concrete input `'ab'`. -/
theorem C9_exclude_patterns_clean_witness :
    "ab" ≠ "" ∧ ∀ c ∈ "ab".toList, c ≠ squote ∧ c ≠ dquote :=
  C9_exclude_patterns_clean (String.mk [squote, 'a', 'b', squote]) "ab" (by decide)

/-- C10: whenever `ParseHuggingFaceSpec` succeeds, the returned spec has
non-empty `Namespace`, `Model` and `Revision`, and the `Model` contains no
`/`, `@` or `:` character. -/
theorem C10_spec_fields (src : String) (spec : HuggingFaceSpec)
    (h : ParseHuggingFaceSpec src = .ok spec) :
    spec.Namespace ≠ "" ∧ spec.Model ≠ "" ∧ spec.Revision ≠ "" ∧
    ∀ c ∈ spec.Model.toList, c ≠ '/' ∧ c ≠ '@' ∧ c ≠ ':' := by
  obtain ⟨ns, model, orev, osub, hns, hm, hrev, _, _, hspec⟩ := parse_sound src spec h
  subst hspec
  refine ⟨?_, ?_, ?_, ?_⟩
  · simp only [specOf]
    intro hcon
    exact hns.1 (congrArg String.data hcon)
  · simp only [specOf]
    intro hcon
    exact hm.1 (congrArg String.data hcon)
  · rcases orev with _ | ⟨sep, rev⟩
    · simp only [specOf]
      decide
    · simp only [specOf]
      intro hcon
      exact hrev.2.1 (congrArg String.data hcon)
  · simp only [specOf, toList_mk]
    exact hm.2

/-- C10 witness: the field invariants at
`huggingface://org/model@rev1/a/b`. -/
theorem C10_spec_fields_witness :
    (HuggingFaceSpec.mk "org" "model" "rev1" "a/b").Namespace ≠ "" ∧
    (HuggingFaceSpec.mk "org" "model" "rev1" "a/b").Model ≠ "" ∧
    (HuggingFaceSpec.mk "org" "model" "rev1" "a/b").Revision ≠ "" ∧
    ∀ c ∈ (HuggingFaceSpec.mk "org" "model" "rev1" "a/b").Model.toList,
      c ≠ '/' ∧ c ≠ '@' ∧ c ≠ ':' :=
  C10_spec_fields "huggingface://org/model@rev1/a/b"
    ⟨"org", "model", "rev1", "a/b"⟩ rfl

end Aikit









